import Mathlib

/-!
# Verification development for the `hal` repository

Shallow embedding of the components named by the specification claims:

* the button edge encoders of `src/hal/data/preprocessing.py`
  (`convert_target_to_one_hot`, `sparse_one_hot`),
* the frame-offset alignment of `src/hal/preprocess/preprocessor.py`
  (`Preprocessor.offset_features`, `Preprocessor.sample_from_episode`,
  `Preprocessor.trajectory_sampling_len`),
* the UDP port discovery of `src/hal/emulator_helper.py` (`find_open_udp_ports`),
* the episode statistics of `src/hal/eval/eval_helper.py` (`EpisodeStats`),
* the control loops of `src/hal/emulator_helper.py` (`EmulatorManager.run_game`,
  `console_manager`) and `src/hal/eval/eval_closed_loop.py` (`run_episode`).

Frames of button data are `List Nat` rows holding 0/1 entries; a `(T, D)` numpy
array becomes a `List (List Nat)` of `T` rows of width `D`.  Python floats are
modelled as rationals, Python ints as `Int`/`Nat`.  Fallible code returns
`Option`.
-/

namespace Hal

/-! ## Button edge encoder (src/hal/data/preprocessing.py) -/

/-- Column indices of the cells equal to 1 in one frame row, in increasing
order.  This is `np.where(row == 1)` / the per-time-step slices of
`np.argwhere(array == 1)` (which lists hits in row-major, i.e. increasing
column, order). -/
def pressed_indices (row : List Nat) : List Nat :=
  (row.enum.filter (fun p => p.2 == 1)).map Prod.fst

/-- A row of `width` cells that is 1 exactly at column `j`
(`one_hot[t, j] = 1` on a fresh `np.zeros` row). -/
def one_hot_row (width j : Nat) : List Nat :=
  (List.range width).map (fun i => if i = j then 1 else 0)

/-- An all-zero row of `width` cells (a fresh `np.zeros` row left untouched). -/
def zero_row (width : Nat) : List Nat :=
  List.replicate width 0

/-- One step of `convert_target_to_one_hot` (preprocessing.py lines 91-128),
written as the per-frame recursion the vectorised numpy code computes:

* no pressed button        -> set the extra last column (`one_hot[no_press_mask, -1] = 1`);
* exactly one pressed      -> set that button's column;
* several pressed          -> among the pressed columns keep those not yet in
  `held_buttons` (`new_buttons = buttons[~held_buttons[buttons]]`); set the
  first such column if any (`one_hot[t, new_buttons[0]] = 1`, guarded by
  `len(new_buttons) > 0`), then mark every pressed column as held
  (`held_buttons[buttons] = True`).  `held_buttons` is only ever written on
  multi-press frames and is never cleared. -/
def convert_target_to_one_hot_go (D : Nat) : List Nat → List (List Nat) → List (List Nat)
  | _, [] => []
  | held, row :: rest =>
    let pressed := pressed_indices row
    match pressed with
    | [] => one_hot_row (D + 1) D :: convert_target_to_one_hot_go D held rest
    | [b] => one_hot_row (D + 1) b :: convert_target_to_one_hot_go D held rest
    | _ :: _ :: _ =>
      let news := pressed.filter (fun b => !(held.contains b))
      let out := match news with
        | [] => zero_row (D + 1)
        | b :: _ => one_hot_row (D + 1) b
      out :: convert_target_to_one_hot_go D (pressed ++ held) rest

/-- `convert_target_to_one_hot` (preprocessing.py lines 81-128): turn a
`(T, D)` 0/1 button matrix into a `(T, D+1)` matrix, the extra last column
standing for "no press".  `held_buttons` starts all-false. -/
def convert_target_to_one_hot (D : Nat) (rows : List (List Nat)) : List (List Nat) :=
  convert_target_to_one_hot_go D [] rows

/-! ## Sparse (rising edge) encoder (src/hal/data/preprocessing.py 197-215) -/

/-- One row of `np.diff(np.vstack([np.zeros(cols), array]), axis=0) == 1`:
cell `c` is true when the column steps from `prev` to `row` by exactly 1. -/
def streak_row (prev row : List Nat) : List Bool :=
  List.zipWith (fun (p x : Nat) => decide ((x : Int) - (p : Int) = 1)) prev row

/-- `streak_starts[rows_without_ones, -1] = 1` applied to one row: set the last
cell of the mask. -/
def set_last (mask : List Bool) : List Bool :=
  mask.set (mask.length - 1) true

/-- One output row of `sparse_one_hot`: the streak-start mask (defaulted to the
last column when it has no set cell), multiplied cellwise with the input row
(`array * streak_starts`). -/
def sparse_row (prev row : List Nat) : List Nat :=
  let mask := streak_row prev row
  let mask := if mask.any id then mask else set_last mask
  List.zipWith (fun x b => if b then x else 0) row mask

/-- Row recursion of `sparse_one_hot`: each row is compared against its
predecessor (the virtual predecessor of row 0 is all zeros). -/
def sparse_one_hot_go : List Nat → List (List Nat) → List (List Nat)
  | _, [] => []
  | prev, row :: rest => sparse_row prev row :: sparse_one_hot_go row rest

/-- `sparse_one_hot` (preprocessing.py lines 197-215) on a `(T, cols)` matrix,
`cols` = number of buttons + 1 (the last column is "no press"). -/
def sparse_one_hot (cols : Nat) (rows : List (List Nat)) : List (List Nat) :=
  sparse_one_hot_go (zero_row cols) rows

/-- Modelled from the spec, for comparison with `sparse_one_hot`: the claimed
pressed-set of an encoded row is the set of active button columns, the last
("no press") column excluded. -/
def claim_pressed_set (cols : Nat) (row : List Nat) : List Nat :=
  pressed_indices (row.take (cols - 1))

/-- Modelled from the spec, for comparison with `sparse_one_hot`: every frame
of a maximal run of identical non-empty pressed-sets after the first, and
every empty-pressed-set frame, is claimed to get the "no-button" category
(last column); the first frame of a run keeps its label. -/
def claim_sparse_go (cols : Nat) : List Nat → List (List Nat) → List (List Nat)
  | _, [] => []
  | prevRow, row :: rest =>
    let out :=
      if claim_pressed_set cols row = [] then one_hot_row cols (cols - 1)
      else if claim_pressed_set cols row = claim_pressed_set cols prevRow then
        one_hot_row cols (cols - 1)
      else row
    out :: claim_sparse_go cols row rest

/-- Modelled from the spec (see `claim_sparse_go`); the virtual predecessor of
row 0 has the empty pressed-set. -/
def claim_sparse (cols : Nat) (rows : List (List Nat)) : List (List Nat) :=
  claim_sparse_go cols (zero_row cols) rows

/-- What `sparse_one_hot` actually computes on one-hot rows (the amended
claim): a repeated row keeps its label only when that label is the last
("no press") column and is zeroed out entirely otherwise; a changed row keeps
its label. -/
def amended_sparse_go (cols : Nat) : List Nat → List (List Nat) → List (List Nat)
  | _, [] => []
  | prevRow, row :: rest =>
    let out :=
      if row = prevRow then
        (if row = one_hot_row cols (cols - 1) then row else zero_row cols)
      else row
    out :: amended_sparse_go cols row rest

/-- Entry point of `amended_sparse_go` with the all-zero virtual predecessor. -/
def amended_sparse (cols : Nat) (rows : List (List Nat)) : List (List Nat) :=
  amended_sparse_go cols (zero_row cols) rows

/-! ## Frame-offset alignment (src/hal/preprocess/preprocessor.py)

A feature-offset map is an association list from feature names to signed frame
offsets (`DataConfig`-derived `frame_offsets_by_feature`).  A sample is an
association list from feature names to their backing sequences. -/

/-- `min((offset for offset in self.frame_offsets_by_feature.values()), default=0)`. -/
def min_offset (offs : List (String × Int)) : Int :=
  match offs.map Prod.snd with
  | [] => 0
  | v :: vs => vs.foldl min v

/-- `max((offset for offset in ...values()), default=0)` — used only by the
claim-side required-length formula, mirroring the spec's `max_offset`. -/
def max_offset (offs : List (String × Int)) : Int :=
  match offs.map Prod.snd with
  | [] => 0
  | v :: vs => vs.foldl max v

/-- `max((abs(offset) for offset in ...values()), default=0)`
(`Preprocessor.max_abs_offset`). -/
def max_abs_offset (offs : List (String × Int)) : Nat :=
  (offs.map (fun p => p.2.natAbs)).foldl max 0

/-- `reference_frame_idx = abs(min(0, self.min_offset))` (preprocessor.py line 98). -/
def reference_frame_idx (offs : List (String × Int)) : Nat :=
  (min 0 (min_offset offs)).natAbs

/-- `self.frame_offsets_by_feature.get(feature_name, 0)` (line 102). -/
def feature_offset (offs : List (String × Int)) (f : String) : Int :=
  (offs.lookup f).getD 0

/-- `tensor[start_idx:end_idx]` with `end_idx = start_idx + seq_len`; every
call site passes a provably non-negative `start` (see
`reference_add_offset_nonneg`), where Python slicing is drop-then-take
(clamping at the sequence end, as Python does). -/
def py_slice (xs : List Int) (start : Int) (len : Nat) : List Int :=
  (xs.drop start.toNat).take len

/-- `Preprocessor.trajectory_sampling_len = seq_len + max_abs_offset`
(preprocessor.py lines 54-59). -/
def trajectory_sampling_len (seq_len : Nat) (offs : List (String × Int)) : Nat :=
  seq_len + max_abs_offset offs

/-- `Preprocessor.offset_features` (preprocessor.py lines 88-108): slice every
feature of the sampled window at `reference_frame_idx + offset`, then package
the slices as a TensorDict with batch size `seq_len` — which raises (here:
`none`) unless every slice really has length `seq_len`. -/
def offset_features (seq_len : Nat) (offs : List (String × Int))
    (sample : List (String × List Int)) : Option (List (String × List Int)) :=
  let out := sample.map (fun fx =>
    (fx.1, py_slice fx.2 ((reference_frame_idx offs : Int) + feature_offset offs fx.1) seq_len))
  if out.all (fun fx => fx.2.length = seq_len) then some out else none

/-- Modelled from the spec, for comparison with `offset_features`: feature `f`
at output position `t` reads raw index `reference + offset(f) + t` where the
reference is chosen so that the most negative offset maps to raw index 0,
i.e. `reference = -min_offset`. -/
def claim_aligned_window (seq_len : Nat) (offs : List (String × Int))
    (sample : List (String × List Int)) : List (String × List Int) :=
  sample.map (fun fx =>
    (fx.1, (List.range seq_len).map (fun t =>
      fx.2.getD ((-min_offset offs) + feature_offset offs fx.1 + t).toNat 0)))

/-- Modelled from the spec, for comparison with `sample_from_episode`: the
spec's required minimum backing length `L + (max_offset - min_offset)`. -/
def spec_required_len (seq_len : Nat) (offs : List (String × Int)) : Int :=
  (seq_len : Int) + (max_offset offs - min_offset offs)

/-- `Preprocessor.sample_from_episode` (preprocessor.py lines 65-86).

* `episode["frame"]` missing is a `KeyError` (`none`);
* the `assert all(len(ndarray) == len(frames) ...)` failing is `none`;
* `sample_index = 0 if debug else random.randint(0, episode_len - trajectory_sampling_len)`,
  where `random.randint` raises `ValueError` (`none`) when its range is empty,
  i.e. when `episode_len < trajectory_sampling_len`; the random draw is
  modelled by reducing the free parameter `r` into the valid range;
* the final TensorDict with batch size `trajectory_sampling_len` raises
  (`none`) unless every slice has exactly that length. -/
def sample_from_episode (seq_len : Nat) (offs : List (String × Int))
    (episode : List (String × List Int)) (debug : Bool) (r : Nat) :
    Option (List (String × List Int)) :=
  let traj := trajectory_sampling_len seq_len offs
  match episode.lookup "frame" with
  | none => none
  | some frames =>
    if episode.all (fun fx => fx.2.length = frames.length) then
      let episode_len := frames.length
      match (if debug then some 0
             else if episode_len < traj then none
             else some (r % (episode_len - traj + 1))) with
      | none => none
      | some idx =>
        let slices := episode.map (fun fx => (fx.1, (fx.2.drop idx).take traj))
        if slices.all (fun fx => fx.2.length = traj) then some slices else none
    else none

/-! ## UDP port discovery (src/hal/emulator_helper.py lines 41-77)

The netstat subprocess and its parsing are I/O; the parsed result — the set of
ports bound on a wildcard/loopback local address — enters the embedding as the
`used` parameter.  `random.sample` draws without replacement; it is modelled by
`random_sample`, which consumes a seed to pick successive positions. -/

/-- `set(range(min_port, max_port)) - used_ports` with `min_port = 10_000`,
`max_port = 2**16`, kept as the ordered list of the remaining ports. -/
def available_ports (used : List Nat) : List Nat :=
  (List.range' 10000 (2 ^ 16 - 10000)).filter (fun p => !(used.contains p))

/-- `random.sample(l, n)`: draw `n` elements of `l` without replacement.  The
seed selects each position; any seed yields some admissible draw. -/
def random_sample : List Nat → Nat → Nat → List Nat
  | _, 0, _ => []
  | l, n + 1, s =>
    if h : 0 < l.length then
      let x := l.get ⟨s % l.length, Nat.mod_lt _ h⟩
      x :: random_sample (l.erase x) n (s / 2)
    else []

/-- `find_open_udp_ports` (emulator_helper.py lines 41-77): raise (`none`) when
fewer than `num` ports remain, else sample `num` of the available ports. -/
def find_open_udp_ports (used : List Nat) (num : Nat) (seed : Nat) : Option (List Nat) :=
  let available := available_ports used
  if available.length < num then none
  else some (random_sample available num seed)

/-! ## Episode statistics (src/hal/eval/eval_helper.py lines 14-61) -/

/-- The menu phases reported by the emulator that matter to the loops and to
`EpisodeStats.update`. -/
inductive Menu where
  | mainMenu
  | characterSelect
  | stageSelect
  | postgameScores
  | inGame
  | suddenDeath
deriving DecidableEq, Repr

/-- The observation handed over per frame: the menu phase plus the counters
`EpisodeStats.update` reads.  Percents are Python floats, modelled as
rationals; stocks are ints. -/
structure GameState where
  menu_state : Menu
  p1_percent : Rat := 0
  p2_percent : Rat := 0
  p1_stock : Int := 4
  p2_stock : Int := 4
deriving DecidableEq, Repr

/-- `EpisodeStats` (eval_helper.py lines 14-25) with the attrs field defaults,
private delta-tracking baselines included. -/
structure EpisodeStats where
  p1_damage : Rat := 0
  p2_damage : Rat := 0
  p1_stocks_lost : Int := 0
  p2_stocks_lost : Int := 0
  frames : Int := 0
  episodes : Int := 1
  _prev_p1_stock : Int := 0
  _prev_p2_stock : Int := 0
  _prev_p1_percent : Rat := 0
  _prev_p2_percent : Rat := 0
deriving DecidableEq, Repr

/-- `EpisodeStats.__add__` (lines 27-35): constructs a new `EpisodeStats`
passing only the six public counters, so every `_prev_*` field takes its
default. -/
def EpisodeStats.add (s o : EpisodeStats) : EpisodeStats :=
  { p1_damage := s.p1_damage + o.p1_damage
    p2_damage := s.p2_damage + o.p2_damage
    p1_stocks_lost := s.p1_stocks_lost + o.p1_stocks_lost
    p2_stocks_lost := s.p2_stocks_lost + o.p2_stocks_lost
    frames := s.frames + o.frames
    episodes := s.episodes + o.episodes }

/-- `EpisodeStats.update` (lines 45-61): a no-op outside IN_GAME/SUDDEN_DEATH;
otherwise accumulate damage deltas clamped at 0, stock losses (a stock loss
counts when the stock is below 4 and below the previous baseline), bump the
frame count and refresh the `_prev_*` baselines. -/
def EpisodeStats.update (s : EpisodeStats) (g : GameState) : EpisodeStats :=
  if g.menu_state = Menu.inGame ∨ g.menu_state = Menu.suddenDeath then
    { s with
      p1_damage := s.p1_damage + max 0 (g.p1_percent - s._prev_p1_percent)
      p2_damage := s.p2_damage + max 0 (g.p2_percent - s._prev_p2_percent)
      p1_stocks_lost := s.p1_stocks_lost +
        (if g.p1_stock < 4 ∧ g.p1_stock < s._prev_p1_stock then 1 else 0)
      p2_stocks_lost := s.p2_stocks_lost +
        (if g.p2_stock < 4 ∧ g.p2_stock < s._prev_p2_stock then 1 else 0)
      frames := s.frames + 1
      _prev_p1_stock := g.p1_stock
      _prev_p2_stock := g.p2_stock
      _prev_p1_percent := g.p1_percent
      _prev_p2_percent := g.p2_percent }
  else s

/-! ## Control loops

`EmulatorManager.run_game` (src/hal/emulator_helper.py lines 306-405) requests
frames from the emulator driver; each request either yields a gamestate, yields
`None`, or exceeds the per-step timeout (the `concurrent.futures` future not
resolving in time).  A run is driven by the finite script of these step
outcomes; the caller's control decisions come from a `policy` (the
`yield`/`send` rendezvous), `none` standing for the "controller inputs are
None" case that is logged and skipped. -/

/-- One result of the (thread-wrapped) `console.step()` call as observed by
`run_game`: a gamestate, `None`, or a `concurrent.futures.TimeoutError`. -/
inductive StepOutcome where
  | frame (g : GameState)
  | noneFrame
  | stepTimeout
deriving DecidableEq, Repr

/-- The Python exceptions relevant to the loop and its teardown context. -/
inductive PyError where
  | timeoutErr
  | keyboardInterrupt
  | otherExc
deriving DecidableEq, Repr

/-- How `run_game`'s while-loop can end without raising. -/
inductive LoopEnd where
  | endOfScript
  | matchEnded
  | reachedMaxSteps
deriving DecidableEq, Repr

/-- The loop-carried state of `run_game`: the step counter `i`, the
`match_started` flag and the `self.episode_stats` attribute (which, being an
attribute of the manager object, survives however the loop ends). -/
structure LoopState where
  i : Nat
  match_started : Bool
  stats : EpisodeStats
deriving DecidableEq, Repr

/-- The while-loop of `run_game` (lines 348-404).  Per iteration, while
`i < max_steps`:

* a timed-out step logs and re-raises the `TimeoutError` (lines 355-357);
* a `None` gamestate is logged and `continue`d past, touching nothing (359-361);
* a menu-phase gamestate breaks the loop once a match had started, and is
  otherwise handed to the menu helper (366-380);
* an in-game gamestate sets `match_started`, yields to the caller (a `none`
  decision is only logged), updates `episode_stats` and bumps `i` (381-404). -/
def run_game_loop (max_steps : Nat) (policy : GameState → Option Unit) :
    List StepOutcome → LoopState → LoopState × Except PyError LoopEnd
  | script, st =>
    if st.i < max_steps then
      match script with
      | [] => (st, Except.ok LoopEnd.endOfScript)
      | o :: rest =>
        match o with
        | StepOutcome.stepTimeout => (st, Except.error PyError.timeoutErr)
        | StepOutcome.noneFrame => run_game_loop max_steps policy rest st
        | StepOutcome.frame g =>
          if g.menu_state = Menu.inGame ∨ g.menu_state = Menu.suddenDeath then
            match policy g with
            | _ =>
              run_game_loop max_steps policy rest
                ⟨st.i + 1, true, st.stats.update g⟩
          else if st.match_started then (st, Except.ok LoopEnd.matchEnded)
          else run_game_loop max_steps policy rest st
    else (st, Except.ok LoopEnd.reachedMaxSteps)

/-- What a whole `run_game` call leaves behind once the `console_manager`
context has unwound. -/
structure RunResult where
  steps : Nat
  stats : EpisodeStats
  stop_calls : Nat
  raised : Option PyError
  timed_out : Bool
deriving DecidableEq, Repr

/-- `run_game` wrapped in `console_manager` (emulator_helper.py lines 214-238,
344-346): the body's exception is matched against the context manager's
handlers — `except KeyboardInterrupt` logs, `except TimeoutError: pass`es,
`except Exception` logs — so nothing propagates to the caller, and the
`finally` block invokes `console.stop()` exactly once on every path. -/
def run_game (max_steps : Nat) (policy : GameState → Option Unit)
    (script : List StepOutcome) : RunResult :=
  let (st, body) := run_game_loop max_steps policy script ⟨0, false, {}⟩
  let raised : Option PyError :=
    match body with
    | Except.ok _ => none
    | Except.error PyError.timeoutErr => none
    | Except.error PyError.keyboardInterrupt => none
    | Except.error PyError.otherExc => none
  { steps := st.i
    stats := st.stats
    stop_calls := 1
    raised := raised
    timed_out := match body with
      | Except.error PyError.timeoutErr => true
      | _ => false }

/-- How the `run_episode` loop of src/hal/eval/eval_closed_loop.py ends. -/
inductive EpisodeEnd where
  | endOfScript
  | gamestateNone
  | matchEnded
  | reachedMaxSteps
deriving DecidableEq, Repr

/-- The while-loop of `run_episode` (eval_closed_loop.py lines 239-271).  Here
`console.step()` is called directly (no timeout thread), so a script entry is
just `Option GameState`; a `None` gamestate `break`s the loop (lines 241-243). -/
def run_episode_loop : List (Option GameState) → Nat → Bool → Nat × EpisodeEnd
  | script, i, started =>
    if i < 10000 then
      match script with
      | [] => (i, EpisodeEnd.endOfScript)
      | none :: _ => (i, EpisodeEnd.gamestateNone)
      | some g :: rest =>
        if g.menu_state = Menu.inGame ∨ g.menu_state = Menu.suddenDeath then
          run_episode_loop rest (i + 1) true
        else if started then (i, EpisodeEnd.matchEnded)
        else run_episode_loop rest i started
    else (i, EpisodeEnd.reachedMaxSteps)

/-- Result of `run_episode`: its loop outcome plus the single `console.stop()`
from its own `console_manager`'s `finally`. -/
structure EpisodeResult where
  steps : Nat
  ended : EpisodeEnd
  stop_calls : Nat
deriving DecidableEq, Repr

/-- `run_episode` (eval_closed_loop.py lines 193-277) from the point the loop
starts, wrapped in its `console_manager` (lines 132-147). -/
def run_episode (script : List (Option GameState)) : EpisodeResult :=
  let (steps, ended) := run_episode_loop script 0 false
  { steps := steps, ended := ended, stop_calls := 1 }

/-! ## Theorems -/

/-- C9: `EpisodeStats.add` sums every public counter field-wise and is
commutative and associative. -/
theorem episode_stats_add_fieldwise_comm_assoc (a b c : EpisodeStats) :
    (a.add b).p1_damage = a.p1_damage + b.p1_damage ∧
    (a.add b).p2_damage = a.p2_damage + b.p2_damage ∧
    (a.add b).p1_stocks_lost = a.p1_stocks_lost + b.p1_stocks_lost ∧
    (a.add b).p2_stocks_lost = a.p2_stocks_lost + b.p2_stocks_lost ∧
    (a.add b).frames = a.frames + b.frames ∧
    (a.add b).episodes = a.episodes + b.episodes ∧
    a.add b = b.add a ∧
    (a.add b).add c = a.add (b.add c) := by
  refine ⟨rfl, rfl, rfl, rfl, rfl, rfl, ?_, ?_⟩ <;>
    (simp only [EpisodeStats.add, EpisodeStats.mk.injEq];
      refine ⟨?_, ?_, ?_, ?_, ?_, ?_, ?_, ?_, ?_, ?_⟩ <;> ring)

/-- C10: merging two `EpisodeStats` zeroes every private `_prev_*` baseline
(the `__add__` constructor passes only the public counters, so the baselines
take their defaults), and therefore an `update` applied right after a merge
measures every delta against 0: damage grows by `max 0 percent` and a stock
loss is detected against the baseline 0 rather than the last observed stock. -/
theorem episode_stats_add_resets_baselines (a b : EpisodeStats) :
    (a.add b)._prev_p1_stock = 0 ∧ (a.add b)._prev_p2_stock = 0 ∧
    (a.add b)._prev_p1_percent = 0 ∧ (a.add b)._prev_p2_percent = 0 ∧
    (∀ g : GameState, g.menu_state = Menu.inGame →
      ((a.add b).update g).p1_damage = (a.add b).p1_damage + max 0 g.p1_percent ∧
      ((a.add b).update g).p2_damage = (a.add b).p2_damage + max 0 g.p2_percent ∧
      ((a.add b).update g).p1_stocks_lost = (a.add b).p1_stocks_lost +
        (if g.p1_stock < 4 ∧ g.p1_stock < 0 then 1 else 0) ∧
      ((a.add b).update g).p2_stocks_lost = (a.add b).p2_stocks_lost +
        (if g.p2_stock < 4 ∧ g.p2_stock < 0 then 1 else 0)) := by
  refine ⟨rfl, rfl, rfl, rfl, fun g hg => ?_⟩
  simp [EpisodeStats.add, EpisodeStats.update, hg]

/-- C10 witness: the merge of two concrete stats has zero baselines, and an
update right after the merge counts the full current percent as damage. -/
theorem episode_stats_add_resets_baselines_witness :
    (let a : EpisodeStats :=
      { p1_damage := 3, _prev_p1_percent := 50, _prev_p1_stock := 2 }
    let b : EpisodeStats :=
      { p1_damage := 7, _prev_p1_percent := 60, _prev_p1_stock := 3 }
    let g : GameState := { menu_state := Menu.inGame, p1_percent := 12, p1_stock := 3 }
    (a.add b)._prev_p1_stock = 0 ∧ (a.add b)._prev_p2_stock = 0 ∧
    (a.add b)._prev_p1_percent = 0 ∧ (a.add b)._prev_p2_percent = 0 ∧
    ((a.add b).update g).p1_damage = (a.add b).p1_damage + max 0 g.p1_percent) := by
  refine ⟨?_, ?_, ?_, ?_, ?_⟩
  case _ => exact (episode_stats_add_resets_baselines _ _).1
  case _ => exact (episode_stats_add_resets_baselines _ _).2.1
  case _ => exact (episode_stats_add_resets_baselines _ _).2.2.1
  case _ => exact (episode_stats_add_resets_baselines _ _).2.2.2.1
  case _ => exact ((episode_stats_add_resets_baselines _ _).2.2.2.2 _ rfl).1

/-- C1: `convert_target_to_one_hot` does not keep the one-hot invariant.  On
the button matrix with both buttons pressed on both frames, frame 1 is a
multi-press frame whose pressed buttons were all marked held on frame 0, so
the `len(new_buttons) > 0` guard writes nothing and the output frame sums to 0
categories instead of exactly 1. -/
theorem convert_target_to_one_hot_zero_row :
    convert_target_to_one_hot 2 [[1, 1], [1, 1]] = [[1, 0, 0], [0, 0, 0]] ∧
    (((convert_target_to_one_hot 2 [[1, 1], [1, 1]]).getD 1 []).sum = 0 ∧
      ((convert_target_to_one_hot 2 [[1, 1], [1, 1]]).getD 0 []).sum = 1) := by
  decide

/-- C2: the encoder can output a button that was pressed on the immediately
preceding frame.  On frame 0 only button 0 is pressed; on frame 1 buttons 0
and 1 are pressed, so the claim requires the newly pressed button 1.
`convert_target_to_one_hot` outputs button 0: `held_buttons` is only written
on multi-press frames, so the single-press frame 0 never marked button 0 as
held. -/
theorem convert_target_to_one_hot_reemits_held :
    convert_target_to_one_hot 2 [[1, 0], [1, 1]] = [[1, 0, 0], [1, 0, 0]] ∧
    ([[1, 0], [1, 1]].getD 0 []).getD 0 0 = 1 ∧
    ((convert_target_to_one_hot 2 [[1, 0], [1, 1]]).getD 1 []).getD 0 0 = 1 := by
  decide

/-! ### Control-loop lemmas -/

/-- Unfolding `run_game_loop` on the empty script. -/
theorem run_game_loop_nil (m : Nat) (p : GameState → Option Unit) (st : LoopState) :
    run_game_loop m p [] st =
      if st.i < m then (st, Except.ok LoopEnd.endOfScript)
      else (st, Except.ok LoopEnd.reachedMaxSteps) := by
  rw [run_game_loop]

/-- Unfolding `run_game_loop` on a timed-out step. -/
theorem run_game_loop_timeout_cons (m : Nat) (p : GameState → Option Unit)
    (rest : List StepOutcome) (st : LoopState) :
    run_game_loop m p (StepOutcome.stepTimeout :: rest) st =
      if st.i < m then (st, Except.error PyError.timeoutErr)
      else (st, Except.ok LoopEnd.reachedMaxSteps) := by
  rw [run_game_loop]

/-- Unfolding `run_game_loop` on a `None` gamestate. -/
theorem run_game_loop_none_cons (m : Nat) (p : GameState → Option Unit)
    (rest : List StepOutcome) (st : LoopState) :
    run_game_loop m p (StepOutcome.noneFrame :: rest) st =
      if st.i < m then run_game_loop m p rest st
      else (st, Except.ok LoopEnd.reachedMaxSteps) := by
  rw [run_game_loop]

/-- Unfolding `run_game_loop` on a delivered gamestate. -/
theorem run_game_loop_frame_cons (m : Nat) (p : GameState → Option Unit)
    (g : GameState) (rest : List StepOutcome) (st : LoopState) :
    run_game_loop m p (StepOutcome.frame g :: rest) st =
      if st.i < m then
        (if g.menu_state = Menu.inGame ∨ g.menu_state = Menu.suddenDeath then
          run_game_loop m p rest ⟨st.i + 1, true, st.stats.update g⟩
        else if st.match_started then (st, Except.ok LoopEnd.matchEnded)
        else run_game_loop m p rest st)
      else (st, Except.ok LoopEnd.reachedMaxSteps) := by
  rw [run_game_loop]

/-- Once the step budget is exhausted the loop returns at once, whatever the
script. -/
theorem run_game_loop_no_budget (m : Nat) (p : GameState → Option Unit)
    (script : List StepOutcome) (st : LoopState) (h : ¬ st.i < m) :
    run_game_loop m p script st = (st, Except.ok LoopEnd.reachedMaxSteps) := by
  cases script with
  | nil => rw [run_game_loop_nil, if_neg h]
  | cons o rest =>
    cases o with
    | frame g => rw [run_game_loop_frame_cons, if_neg h]
    | noneFrame => rw [run_game_loop_none_cons, if_neg h]
    | stepTimeout => rw [run_game_loop_timeout_cons, if_neg h]

/-- Nothing after the first timed-out step is ever examined: the loop raises
there instead of retrying. -/
theorem run_game_loop_timeout_tail (m : Nat) (p : GameState → Option Unit)
    (post post' : List StepOutcome) :
    ∀ (pre : List StepOutcome) (st : LoopState),
      run_game_loop m p (pre ++ StepOutcome.stepTimeout :: post) st =
        run_game_loop m p (pre ++ StepOutcome.stepTimeout :: post') st := by
  intro pre
  induction pre with
  | nil =>
    intro st
    simp only [List.nil_append, run_game_loop_timeout_cons]
  | cons o rest ih =>
    intro st
    cases o with
    | frame g =>
      simp only [List.cons_append, run_game_loop_frame_cons]
      split
      · split
        · exact ih _
        · split
          · rfl
          · exact ih _
      · rfl
    | noneFrame =>
      simp only [List.cons_append, run_game_loop_none_cons]
      split
      · exact ih _
      · rfl
    | stepTimeout =>
      simp only [List.cons_append, run_game_loop_timeout_cons]

/-- A `None` gamestate is skipped without touching the loop state: deleting it
from the script changes nothing. -/
theorem run_game_loop_skip_none (m : Nat) (p : GameState → Option Unit)
    (post : List StepOutcome) :
    ∀ (pre : List StepOutcome) (st : LoopState),
      run_game_loop m p (pre ++ StepOutcome.noneFrame :: post) st =
        run_game_loop m p (pre ++ post) st := by
  intro pre
  induction pre with
  | nil =>
    intro st
    simp only [List.nil_append, run_game_loop_none_cons]
    split
    · rfl
    · rw [run_game_loop_no_budget _ _ _ _ (by assumption)]
  | cons o rest ih =>
    intro st
    cases o with
    | frame g =>
      simp only [List.cons_append, run_game_loop_frame_cons]
      split
      · split
        · exact ih _
        · split
          · rfl
          · exact ih _
      · rfl
    | noneFrame =>
      simp only [List.cons_append, run_game_loop_none_cons]
      split
      · exact ih _
      · rfl
    | stepTimeout =>
      simp only [List.cons_append, run_game_loop_timeout_cons]

/-- `console_manager` suppresses every exception class it sees, so `run_game`
never lets one reach its caller. -/
theorem run_game_raised_none (m : Nat) (p : GameState → Option Unit)
    (script : List StepOutcome) : (run_game m p script).raised = none := by
  cases h : run_game_loop m p script ⟨0, false, {}⟩ with
  | mk st body =>
    simp only [run_game, h]
    cases body with
    | ok v => rfl
    | error e => cases e <;> rfl

/-- The `finally` of `console_manager` runs `console.stop()` exactly once on
every path. -/
theorem run_game_stop_calls_one (m : Nat) (p : GameState → Option Unit)
    (script : List StepOutcome) : (run_game m p script).stop_calls = 1 := by
  cases h : run_game_loop m p script ⟨0, false, {}⟩ with
  | mk st body => simp only [run_game, h]

/-- Unfolding `run_episode_loop` on the empty script. -/
theorem run_episode_loop_nil (i : Nat) (started : Bool) :
    run_episode_loop [] i started =
      if i < 10000 then (i, EpisodeEnd.endOfScript) else (i, EpisodeEnd.reachedMaxSteps) := by
  rw [run_episode_loop]

/-- Unfolding `run_episode_loop` on a `None` gamestate: the loop breaks. -/
theorem run_episode_loop_none_cons (rest : List (Option GameState)) (i : Nat)
    (started : Bool) :
    run_episode_loop (none :: rest) i started =
      if i < 10000 then (i, EpisodeEnd.gamestateNone) else (i, EpisodeEnd.reachedMaxSteps) := by
  rw [run_episode_loop]

/-- Unfolding `run_episode_loop` on a delivered gamestate. -/
theorem run_episode_loop_some_cons (g : GameState) (rest : List (Option GameState))
    (i : Nat) (started : Bool) :
    run_episode_loop (some g :: rest) i started =
      if i < 10000 then
        (if g.menu_state = Menu.inGame ∨ g.menu_state = Menu.suddenDeath then
          run_episode_loop rest (i + 1) true
        else if started then (i, EpisodeEnd.matchEnded)
        else run_episode_loop rest i started)
      else (i, EpisodeEnd.reachedMaxSteps) := by
  rw [run_episode_loop]

/-- In `run_episode` everything after the first `None` gamestate is dead code:
the loop breaks there. -/
theorem run_episode_loop_none_tail (post post' : List (Option GameState)) :
    ∀ (pre : List (Option GameState)) (i : Nat) (started : Bool),
      run_episode_loop (pre ++ none :: post) i started =
        run_episode_loop (pre ++ none :: post') i started := by
  intro pre
  induction pre with
  | nil =>
    intro i started
    simp only [List.nil_append, run_episode_loop_none_cons]
  | cons o rest ih =>
    intro i started
    cases o with
    | none =>
      simp only [List.cons_append, run_episode_loop_none_cons]
    | some g =>
      simp only [List.cons_append, run_episode_loop_some_cons]
      split
      · split
        · exact ih _ _
        · split
          · rfl
          · exact ih _ _
      · rfl

/-- C6: amended timeout behavior of `EmulatorManager.run_game`.  A timed-out
`console.step()` is not retried — the whole run result is independent of
whatever would come after the timeout — teardown calls `console.stop()`
exactly once, and the `TimeoutError` raised inside the loop is swallowed by
`console_manager`'s `except TimeoutError: pass`, so no error reaches the
caller.  (The `timeout + epsilon` wall-clock bound is a real-time property
outside this model.) -/
theorem run_game_timeout_behavior (m : Nat) (p : GameState → Option Unit)
    (pre post post' : List StepOutcome) :
    run_game m p (pre ++ StepOutcome.stepTimeout :: post) =
      run_game m p (pre ++ StepOutcome.stepTimeout :: post') ∧
    (run_game m p (pre ++ StepOutcome.stepTimeout :: post)).stop_calls = 1 ∧
    (run_game m p (pre ++ StepOutcome.stepTimeout :: post)).raised = none := by
  refine ⟨?_, run_game_stop_calls_one _ _ _, run_game_raised_none _ _ _⟩
  simp only [run_game, run_game_loop_timeout_tail m p post post' pre]

/-- C6 counterexample: on a script whose first step times out, the run records
the timeout and the single teardown `stop()`, but the caller sees no raised
error — the claimed propagation does not happen. -/
theorem run_game_timeout_not_propagated :
    (run_game 99999 (fun _ => some ()) [StepOutcome.stepTimeout]).timed_out = true ∧
    (run_game 99999 (fun _ => some ()) [StepOutcome.stepTimeout]).raised = none ∧
    (run_game 99999 (fun _ => some ()) [StepOutcome.stepTimeout]).stop_calls = 1 := by
  decide

/-- C7: amended `None`-frame behavior.  In `EmulatorManager.run_game` a `None`
gamestate is transient: deleting it from the step script leaves the entire run
result (steps, stats, teardown, errors) unchanged.  In
`eval_closed_loop.run_episode`, by contrast, everything after the first `None`
gamestate is irrelevant because the loop breaks there. -/
theorem none_frame_behavior (m : Nat) (p : GameState → Option Unit)
    (pre post : List StepOutcome) (pre2 post2 post3 : List (Option GameState)) :
    run_game m p (pre ++ StepOutcome.noneFrame :: post) = run_game m p (pre ++ post) ∧
    run_episode (pre2 ++ none :: post2) = run_episode (pre2 ++ none :: post3) := by
  constructor
  · simp only [run_game, run_game_loop_skip_none m p post pre]
  · simp only [run_episode, run_episode_loop_none_tail post2 post3 pre2]

/-- C7 counterexample: `run_episode` does not skip-and-retry on a `None`
gamestate — it ends the episode at once (zero steps), even though the very
next script entry is an in-game frame that, on its own, would be processed. -/
theorem run_episode_breaks_on_none :
    run_episode [none, some { menu_state := Menu.inGame }] =
      { steps := 0, ended := EpisodeEnd.gamestateNone, stop_calls := 1 } ∧
    run_episode [some { menu_state := Menu.inGame }] =
      { steps := 1, ended := EpisodeEnd.endOfScript, stop_calls := 1 } := by
  decide

/-! ### Port-discovery lemmas -/

/-- Drawing `n` elements without replacement from a list of at least `n`
elements yields exactly `n` elements. -/
theorem random_sample_length :
    ∀ (n : Nat) (l : List Nat) (s : Nat), n ≤ l.length → (random_sample l n s).length = n := by
  intro n
  induction n with
  | zero => intro l s _; rfl
  | succ n ih =>
    intro l s h
    have hl : 0 < l.length := Nat.lt_of_lt_of_le (Nat.succ_pos n) h
    rw [random_sample, dif_pos hl]
    have hx : l.get ⟨s % l.length, Nat.mod_lt _ hl⟩ ∈ l := List.get_mem _ _ _
    have herase : (l.erase (l.get ⟨s % l.length, Nat.mod_lt _ hl⟩)).length = l.length - 1 :=
      List.length_erase_of_mem hx
    simp only [List.length_cons]
    rw [ih _ _ (by omega)]

/-- Every drawn element comes from the source list. -/
theorem random_sample_mem :
    ∀ (n : Nat) (l : List Nat) (s x : Nat), x ∈ random_sample l n s → x ∈ l := by
  intro n
  induction n with
  | zero => intro l s x hx; simp [random_sample] at hx
  | succ n ih =>
    intro l s x hx
    by_cases hl : 0 < l.length
    · rw [random_sample, dif_pos hl] at hx
      rcases List.mem_cons.mp hx with h | h
      · exact h ▸ List.get_mem _ _ _
      · exact List.mem_of_mem_erase (ih _ _ _ h)
    · rw [random_sample, dif_neg hl] at hx
      simp at hx

/-- Drawing without replacement from a duplicate-free list yields a
duplicate-free draw. -/
theorem random_sample_nodup :
    ∀ (n : Nat) (l : List Nat) (s : Nat), l.Nodup → (random_sample l n s).Nodup := by
  intro n
  induction n with
  | zero => intro l s _; simp [random_sample]
  | succ n ih =>
    intro l s hl
    by_cases hpos : 0 < l.length
    · rw [random_sample, dif_pos hpos]
      refine List.nodup_cons.mpr ⟨?_, ih _ _ (hl.erase _)⟩
      intro hmem
      have := random_sample_mem _ _ _ _ hmem
      exact ((hl.mem_erase_iff).mp this).1 rfl
    · rw [random_sample, dif_neg hpos]
      exact List.nodup_nil

/-- The available-port list never repeats a port. -/
theorem available_ports_nodup (used : List Nat) : (available_ports used).Nodup := by
  unfold available_ports
  exact (List.nodup_range' _ _).filter _

/-- Membership in the available-port list: in the scanned range and not used. -/
theorem mem_available_ports (used : List Nat) (p : Nat) :
    p ∈ available_ports used ↔ (10000 ≤ p ∧ p < 65536) ∧ p ∉ used := by
  unfold available_ports
  rw [List.mem_filter, List.mem_range'_1]
  simp

/-- C8: `find_open_udp_ports` fails exactly when fewer than `num` ports remain
outside the used set, and any returned list holds exactly `num` distinct
ports, each inside `[10000, 65536)` and none of them used. -/
theorem find_open_udp_ports_spec (used : List Nat) (num seed : Nat) :
    ((find_open_udp_ports used num seed).isNone ↔ (available_ports used).length < num) ∧
    (∀ l, find_open_udp_ports used num seed = some l →
      l.length = num ∧ l.Nodup ∧ ∀ p ∈ l, (10000 ≤ p ∧ p < 65536) ∧ p ∉ used) := by
  constructor
  · by_cases hlt : (available_ports used).length < num
    · simp [find_open_udp_ports, hlt]
    · simp [find_open_udp_ports, hlt]
  · intro l hl
    by_cases hlt : (available_ports used).length < num
    · simp [find_open_udp_ports, hlt] at hl
    · have hn : num ≤ (available_ports used).length := Nat.le_of_not_lt hlt
      have hsome : random_sample (available_ports used) num seed = l := by
        simpa [find_open_udp_ports, hlt] using hl
      subst hsome
      refine ⟨random_sample_length _ _ _ hn, random_sample_nodup _ _ _ (available_ports_nodup used), ?_⟩
      intro p hp
      exact (mem_available_ports used p).mp (random_sample_mem _ _ _ _ hp)

/-- C8 witness: with every port of the scanned range marked used, a request
for one port fails; and a request for zero ports succeeds with the empty,
trivially valid, draw. -/
theorem find_open_udp_ports_spec_witness :
    (find_open_udp_ports (List.range' 10000 55536) 1 0).isNone = true ∧
    (([] : List Nat).length = 0 ∧ ([] : List Nat).Nodup ∧
      ∀ p ∈ ([] : List Nat), (10000 ≤ p ∧ p < 65536) ∧ p ∉ [5]) := by
  constructor
  · have hempty : available_ports (List.range' 10000 55536) = [] := by
      apply List.filter_eq_nil_iff.mpr
      intro a ha
      simp only [Bool.not_eq_true', Bool.not_eq_false]
      exact List.elem_eq_true_of_mem (by simpa using ha)
    have := (find_open_udp_ports_spec (List.range' 10000 55536) 1 0).1.mpr
      (by rw [hempty]; simp)
    simpa using this
  · refine (find_open_udp_ports_spec [5] 0 0).2 [] ?_
    unfold find_open_udp_ports
    rw [if_neg (Nat.not_lt_zero _)]
    rfl

/-! ### Alignment lemmas -/

/-- A successful association-list lookup comes from an entry of the list. -/
theorem lookup_mem {f : String} {v : Int} :
    ∀ {offs : List (String × Int)}, offs.lookup f = some v → (f, v) ∈ offs := by
  intro offs
  induction offs with
  | nil => intro h; simp [List.lookup] at h
  | cons p rest ih =>
    intro h
    rcases p with ⟨k, b⟩
    rw [List.lookup] at h
    by_cases hbeq : (f == k) = true
    · rw [hbeq] at h
      simp only [Option.some.injEq] at h
      have : f = k := by simpa using hbeq
      subst this; subst h
      exact List.mem_cons_self _ _
    · rw [Bool.not_eq_true] at hbeq
      rw [hbeq] at h
      exact List.mem_cons_of_mem _ (ih h)

/-- A left fold by `min` never exceeds its initial value. -/
theorem foldl_min_le_init : ∀ (vs : List Int) (v : Int), vs.foldl min v ≤ v := by
  intro vs
  induction vs with
  | nil => intro v; exact le_refl v
  | cons a vs ih =>
    intro v
    calc (a :: vs).foldl min v = vs.foldl min (min v a) := rfl
    _ ≤ min v a := ih _
    _ ≤ v := min_le_left _ _

/-- A left fold by `min` never exceeds any folded element. -/
theorem foldl_min_le_mem : ∀ (vs : List Int) (v x : Int), x ∈ vs → vs.foldl min v ≤ x := by
  intro vs
  induction vs with
  | nil => intro v x hx; simp at hx
  | cons a vs ih =>
    intro v x hx
    rcases List.mem_cons.mp hx with h | h
    · subst h
      calc (x :: vs).foldl min v = vs.foldl min (min v x) := rfl
      _ ≤ min v x := foldl_min_le_init _ _
      _ ≤ x := min_le_right _ _
    · exact ih _ _ h

/-- A left fold by `max` is at least its initial value. -/
theorem le_foldl_max_init : ∀ (vs : List Int) (v : Int), v ≤ vs.foldl max v := by
  intro vs
  induction vs with
  | nil => intro v; exact le_refl v
  | cons a vs ih =>
    intro v
    calc v ≤ max v a := le_max_left _ _
    _ ≤ vs.foldl max (max v a) := ih _
    _ = (a :: vs).foldl max v := rfl

/-- A left fold by `max` is at least any folded element. -/
theorem le_foldl_max_mem : ∀ (vs : List Int) (v x : Int), x ∈ vs → x ≤ vs.foldl max v := by
  intro vs
  induction vs with
  | nil => intro v x hx; simp at hx
  | cons a vs ih =>
    intro v x hx
    rcases List.mem_cons.mp hx with h | h
    · subst h
      calc x ≤ max v x := le_max_right _ _
      _ ≤ vs.foldl max (max v x) := le_foldl_max_init _ _
      _ = (x :: vs).foldl max v := rfl
    · exact ih _ _ h

/-- `min_offset` bounds every offset of the map from below. -/
theorem min_offset_le {offs : List (String × Int)} {f : String} {v : Int}
    (h : (f, v) ∈ offs) : min_offset offs ≤ v := by
  cases offs with
  | nil => simp at h
  | cons p rest =>
    have hv : v ∈ (p :: rest).map Prod.snd := List.mem_map_of_mem _ h
    unfold min_offset
    simp only [List.map_cons] at hv ⊢
    rcases List.mem_cons.mp hv with h1 | h1
    · subst h1; exact foldl_min_le_init _ _
    · exact foldl_min_le_mem _ _ _ h1

/-- `max_offset` bounds every offset of the map from above. -/
theorem le_max_offset {offs : List (String × Int)} {f : String} {v : Int}
    (h : (f, v) ∈ offs) : v ≤ max_offset offs := by
  cases offs with
  | nil => simp at h
  | cons p rest =>
    have hv : v ∈ (p :: rest).map Prod.snd := List.mem_map_of_mem _ h
    unfold max_offset
    simp only [List.map_cons] at hv ⊢
    rcases List.mem_cons.mp hv with h1 | h1
    · subst h1; exact le_foldl_max_init _ _
    · exact le_foldl_max_mem _ _ _ h1

/-- The effective per-feature offset is at least `min 0 min_offset`. -/
theorem min0_le_feature_offset (offs : List (String × Int)) (f : String) :
    min 0 (min_offset offs) ≤ feature_offset offs f := by
  unfold feature_offset
  cases h : offs.lookup f with
  | none => exact min_le_left _ _
  | some v =>
    calc min 0 (min_offset offs) ≤ min_offset offs := min_le_right _ _
    _ ≤ v := min_offset_le (lookup_mem h)
    _ = (some v).getD 0 := rfl

/-- The effective per-feature offset is at most `max 0 max_offset`. -/
theorem feature_offset_le_max0 (offs : List (String × Int)) (f : String) :
    feature_offset offs f ≤ max 0 (max_offset offs) := by
  unfold feature_offset
  cases h : offs.lookup f with
  | none => exact le_max_left _ _
  | some v =>
    calc (some v).getD 0 = v := rfl
    _ ≤ max_offset offs := le_max_offset (lookup_mem h)
    _ ≤ max 0 (max_offset offs) := le_max_right _ _

/-- Every slice start computed by `offset_features` is non-negative. -/
theorem reference_add_offset_nonneg (offs : List (String × Int)) (f : String) :
    0 ≤ (reference_frame_idx offs : Int) + feature_offset offs f := by
  have h1 := min0_le_feature_offset offs f
  unfold reference_frame_idx
  omega

/-- A drop-then-take window of an in-range region, described pointwise. -/
theorem drop_take_eq_map_range (xs : List Int) (s L : Nat) (h : s + L ≤ xs.length) :
    (xs.drop s).take L = (List.range L).map (fun t => xs.getD (s + t) 0) := by
  apply List.ext_getElem
  · simp; omega
  · intro i h1 h2
    have hiL : i < L := by simp at h1; omega
    have hsl : s + i < xs.length := by omega
    have hd : i < (xs.drop s).length := by simp; omega
    calc ((xs.drop s).take L)[i] = (xs.drop s)[i] := List.getElem_take ..
    _ = xs[s + i] := List.getElem_drop ..
    _ = xs.getD (s + i) 0 := (List.getD_eq_getElem _ _ hsl).symm
    _ = ((List.range L).map (fun t => xs.getD (s + t) 0))[i] := by simp [hiL]

/-- `py_slice` at a non-negative in-range start, described pointwise. -/
theorem py_slice_eq_map_range (xs : List Int) (s : Int) (L : Nat)
    (h0 : 0 ≤ s) (h : s.toNat + L ≤ xs.length) :
    py_slice xs s L = (List.range L).map (fun t : Nat => xs.getD (s + (t : Int)).toNat 0) := by
  unfold py_slice
  rw [drop_take_eq_map_range xs s.toNat L h]
  apply List.map_congr_left
  intro t _
  congr 1
  omega

/-- C4 (amended): `offset_features` with the reference the code computes,
`reference = |min(0, min_offset)|`.  Whenever every backing sequence has at
least `reference + max(0, max_offset) + L` frames, the aligned window exists
and feature `f` at output position `t` reads raw index
`reference + offset(f) + t`; and whenever `min_offset <= 0` — but only then —
this reference maps the most negative offset to raw index 0. -/
theorem offset_features_aligned (seq_len : Nat) (offs : List (String × Int))
    (sample : List (String × List Int))
    (hlen : ∀ fx ∈ sample,
      reference_frame_idx offs + (max 0 (max_offset offs)).toNat + seq_len ≤ fx.2.length) :
    offset_features seq_len offs sample =
      some (sample.map (fun fx => (fx.1, (List.range seq_len).map (fun t : Nat =>
        fx.2.getD ((reference_frame_idx offs : Int) + feature_offset offs fx.1 + (t : Int)).toNat 0)))) ∧
    (min_offset offs ≤ 0 → (reference_frame_idx offs : Int) + min_offset offs = 0) := by
  constructor
  · have key : ∀ fx ∈ sample,
        py_slice fx.2 ((reference_frame_idx offs : Int) + feature_offset offs fx.1) seq_len =
          (List.range seq_len).map (fun t : Nat =>
            fx.2.getD ((reference_frame_idx offs : Int) + feature_offset offs fx.1 + (t : Int)).toNat 0) := by
      intro fx hfx
      apply py_slice_eq_map_range
      · exact reference_add_offset_nonneg offs fx.1
      · have h1 := hlen fx hfx
        have h2 := feature_offset_le_max0 offs fx.1
        have h3 := reference_add_offset_nonneg offs fx.1
        omega
    unfold offset_features
    rw [if_pos]
    · congr 1
      apply List.map_congr_left
      intro fx hfx
      rw [key fx hfx]
    · rw [List.all_eq_true]
      intro fx hfx
      rcases List.mem_map.mp hfx with ⟨fy, hfy, rfl⟩
      simp only
      rw [key fy hfy]
      simp
  · intro hm
    unfold reference_frame_idx
    rw [min_eq_right hm]
    omega

/-- C4 witness: a concrete two-feature sample aligned with offsets
`{a: -1}` (reference 1): feature `a` reads raw indices `0, 1` and the
unmapped feature `b` reads raw indices `1, 2`, exactly the claimed formula. -/
theorem offset_features_aligned_witness :
    offset_features 2 [("a", -1)] [("a", [5, 6, 7]), ("b", [8, 9, 10])] =
      some (([("a", [5, 6, 7]), ("b", [8, 9, 10])] : List (String × List Int)).map
        (fun fx => (fx.1, (List.range 2).map (fun t : Nat =>
          fx.2.getD ((reference_frame_idx [("a", -1)] : Int) +
            feature_offset [("a", -1)] fx.1 + (t : Int)).toNat 0)))) ∧
    (min_offset [("a", -1)] ≤ 0 →
      (reference_frame_idx [("a", -1)] : Int) + min_offset [("a", -1)] = 0) :=
  offset_features_aligned 2 [("a", -1)] [("a", [5, 6, 7]), ("b", [8, 9, 10])] (by decide)

/-- C4 counterexample: with the all-positive offset map `{f: 2}` and output
length 1, the code's window reads raw index 2, while the claim's reference
(the one mapping the most negative offset to raw index 0) would read raw
index 0: the claim's formula does not describe `offset_features`. -/
theorem offset_features_counterexample :
    offset_features 1 [("f", 2)] [("f", [10, 11, 12])] = some [("f", [12])] ∧
    claim_aligned_window 1 [("f", 2)] [("f", [10, 11, 12])] = [("f", [10])] ∧
    offset_features 1 [("f", 2)] [("f", [10, 11, 12])] ≠
      some (claim_aligned_window 1 [("f", 2)] [("f", [10, 11, 12])]) := by
  decide

/-- C5 (amended): `sample_from_episode` (non-debug) fails — via the
`ValueError` that `random.randint` raises on an empty range, there being no
`InsufficientHistory` error anywhere in the code — exactly when the episode is
shorter than `trajectory_sampling_len = L + max(|offset|)` frames; note
`max(|offset|)`, not the claimed `max_offset - min_offset`. -/
theorem sample_from_episode_spec (seq_len : Nat) (offs : List (String × Int))
    (episode : List (String × List Int)) (r : Nat) (frames : List Int)
    (hf : episode.lookup "frame" = some frames)
    (hu : episode.all (fun fx => fx.2.length = frames.length) = true) :
    (sample_from_episode seq_len offs episode false r).isSome ↔
      trajectory_sampling_len seq_len offs ≤ frames.length := by
  unfold sample_from_episode
  rw [hf]
  simp only [if_pos hu, Bool.false_eq_true, if_false]
  by_cases hlen : frames.length < trajectory_sampling_len seq_len offs
  · rw [if_pos hlen]
    simp
    omega
  · rw [if_neg hlen]
    simp only
    rw [if_pos]
    · simp
      omega
    · rw [List.all_eq_true]
      intro fx hfx
      rcases List.mem_map.mp hfx with ⟨fy, hfy, rfl⟩
      have hfylen : fy.2.length = frames.length := by
        have := (List.all_eq_true.mp hu) fy hfy
        simpa using this
      have hidx : r % (frames.length - trajectory_sampling_len seq_len offs + 1) ≤
          frames.length - trajectory_sampling_len seq_len offs :=
        Nat.le_of_lt_succ (Nat.mod_lt _ (Nat.succ_pos _))
      simp only [List.length_take, List.length_drop, decide_eq_true_eq]
      omega

/-- C5 witness: a two-feature episode of exactly
`trajectory_sampling_len = 2 + 1` frames samples successfully. -/
theorem sample_from_episode_spec_witness :
    (sample_from_episode 2 [("a", -1)] [("frame", [0, 1, 2]), ("a", [3, 4, 5])] false 5).isSome ↔
      trajectory_sampling_len 2 [("a", -1)] ≤
        ([0, 1, 2] : List Int).length :=
  sample_from_episode_spec 2 [("a", -1)] [("frame", [0, 1, 2]), ("a", [3, 4, 5])] 5 [0, 1, 2]
    (by decide) (by decide)

/-- C5 counterexample: with offsets `{a: -1, b: +1}` and `L = 2` the spec's
threshold is `L + (max_offset - min_offset) = 4`, yet the 3-frame episode —
shorter than that threshold — samples successfully (the code only requires
`L + max(|offset|) = 3` frames), so no failure occurs where the claim demands
one. -/
theorem sample_from_episode_counterexample :
    (sample_from_episode 2 [("a", -1), ("b", 1)]
      [("frame", [0, 1, 2]), ("a", [3, 4, 5]), ("b", [6, 7, 8])] false 0).isSome = true ∧
    ((([("frame", ([0, 1, 2] : List Int)), ("a", [3, 4, 5]), ("b", [6, 7, 8])].lookup
        "frame").getD []).length : Int) < spec_required_len 2 [("a", -1), ("b", 1)] := by
  decide

/-! ### Sparse-encoder lemmas -/

/-- Width of a one-hot row. -/
theorem length_one_hot_row (n c : Nat) : (one_hot_row n c).length = n := by
  simp [one_hot_row]

/-- Cells of a one-hot row. -/
theorem getElem_one_hot_row (n c i : Nat) (h : i < (one_hot_row n c).length) :
    (one_hot_row n c)[i] = if i = c then 1 else 0 := by
  simp [one_hot_row]

/-- Width of the all-zero row. -/
theorem length_zero_row (n : Nat) : (zero_row n).length = n := by
  simp [zero_row]

/-- Cells of the all-zero row. -/
theorem getElem_zero_row (n i : Nat) (h : i < (zero_row n).length) :
    (zero_row n)[i] = 0 := by
  simp [zero_row]

/-- `getD` view of a one-hot row's cells. -/
theorem getD_one_hot_row (n c i : Nat) (h : i < n) :
    (one_hot_row n c).getD i 0 = if i = c then 1 else 0 := by
  rw [List.getD_eq_getElem _ _ (by rw [length_one_hot_row]; exact h)]
  exact getElem_one_hot_row n c i (by rw [length_one_hot_row]; exact h)

/-- `getD` view of the zero row's cells. -/
theorem getD_zero_row (n i : Nat) : (zero_row n).getD i 0 = 0 := by
  by_cases h : i < n
  · rw [List.getD_eq_getElem _ _ (by rw [length_zero_row]; exact h)]
    exact getElem_zero_row n i (by rw [length_zero_row]; exact h)
  · rw [List.getD_eq_default _ _ (by rw [length_zero_row]; omega)]

/-- A one-hot row with an in-range hot cell is not the zero row. -/
theorem one_hot_row_ne_zero_row {n c : Nat} (hc : c < n) :
    one_hot_row n c ≠ zero_row n := by
  intro h
  have h1 : (one_hot_row n c).getD c 0 = 1 := by
    rw [getD_one_hot_row n c c hc]; simp
  rw [h, getD_zero_row] at h1
  exact one_ne_zero h1.symm

/-- Two in-range one-hot rows of the same width agree exactly when their hot
cells agree. -/
theorem one_hot_row_inj {n c c' : Nat} (hc : c < n) :
    one_hot_row n c = one_hot_row n c' ↔ c = c' := by
  constructor
  · intro h
    have h1 : (one_hot_row n c).getD c 0 = 1 := by
      rw [getD_one_hot_row n c c hc]; simp
    rw [h, getD_one_hot_row n c' c hc] at h1
    by_contra hne
    rw [if_neg hne] at h1
    exact one_ne_zero h1.symm
  · intro h; rw [h]

/-- A fresh rising edge: when the previous row is 0 at the hot cell of the
current one-hot row, `sparse_row` keeps the whole row. -/
theorem sparse_row_new (cols c : Nat) (hc : c < cols) (prev : List Nat)
    (hlen : prev.length = cols)
    (hpc : prev[c] = 0) :
    sparse_row prev (one_hot_row cols c) = one_hot_row cols c := by
  have hrowlen : (one_hot_row cols c).length = cols := length_one_hot_row cols c
  have hmasklen : (streak_row prev (one_hot_row cols c)).length = cols := by
    simp [streak_row, hlen, hrowlen]
  have hcm : c < (streak_row prev (one_hot_row cols c)).length := by omega
  have hmaskc : (streak_row prev (one_hot_row cols c))[c] = true := by
    unfold streak_row
    rw [List.getElem_zipWith]
    rw [hpc, getElem_one_hot_row]
    simp
  have hany : (streak_row prev (one_hot_row cols c)).any id = true := by
    rw [List.any_eq_true]
    exact ⟨true, by rw [← hmaskc]; exact List.getElem_mem _, rfl⟩
  unfold sparse_row
  simp only [hany, if_true]
  apply List.ext_getElem
  · simp [hlen, hrowlen, streak_row]
  · intro i h1 h2
    rw [List.getElem_zipWith]
    by_cases hic : i = c
    · subst hic
      rw [hmaskc]
      simp
    · have : (one_hot_row cols c)[i] = 0 := by
        rw [getElem_one_hot_row]; simp [hic]
      rw [this]
      split <;> rfl

/-- A held label: on two identical one-hot rows `sparse_row` degrades to the
last column — the row survives if its label is the last column and is zeroed
out otherwise. -/
theorem sparse_row_same (cols c : Nat) (hc : c < cols) :
    sparse_row (one_hot_row cols c) (one_hot_row cols c) =
      if c = cols - 1 then one_hot_row cols c else zero_row cols := by
  have hrowlen : (one_hot_row cols c).length = cols := length_one_hot_row cols c
  have hmasklen : (streak_row (one_hot_row cols c) (one_hot_row cols c)).length = cols := by
    simp [streak_row, hrowlen]
  have hmask : ∀ (i : Nat) (h : i < (streak_row (one_hot_row cols c) (one_hot_row cols c)).length),
      (streak_row (one_hot_row cols c) (one_hot_row cols c))[i] = false := by
    intro i h
    unfold streak_row
    rw [List.getElem_zipWith]
    simp
  have hany : (streak_row (one_hot_row cols c) (one_hot_row cols c)).any id = false := by
    rw [List.any_eq_false]
    intro b hb
    rcases List.mem_iff_getElem.mp hb with ⟨i, hi, rfl⟩
    rw [hmask i (by omega)]
    simp
  unfold sparse_row
  simp only [hany, Bool.false_eq_true, if_false]
  have hsetlen : (set_last (streak_row (one_hot_row cols c) (one_hot_row cols c))).length = cols := by
    simp [set_last, hmasklen]
  by_cases hcl : c = cols - 1
  · rw [if_pos hcl]
    apply List.ext_getElem
    · rw [List.length_zipWith, hrowlen, hsetlen]
      simp
    · intro i h1 h2
      have hicols : i < cols := by
        rw [List.length_zipWith, hrowlen, hsetlen] at h1
        omega
      rw [List.getElem_zipWith]
      unfold set_last
      simp only [List.getElem_set, hmasklen]
      by_cases hil : cols - 1 = i
      · rw [if_pos hil]
        simp
      · rw [if_neg hil, hmask i (by omega)]
        simp only [Bool.false_eq_true, if_false]
        rw [getElem_one_hot_row]
        have : ¬ i = c := by omega
        simp [this]
  · rw [if_neg hcl]
    apply List.ext_getElem
    · rw [List.length_zipWith, hrowlen, hsetlen, length_zero_row]
      simp
    · intro i h1 h2
      have hicols : i < cols := by
        rw [List.length_zipWith, hrowlen, hsetlen] at h1
        omega
      rw [List.getElem_zipWith, getElem_zero_row]
      unfold set_last
      simp only [List.getElem_set, hmasklen]
      by_cases hil : cols - 1 = i
      · rw [if_pos hil]
        simp only [if_true]
        rw [getElem_one_hot_row]
        have : ¬ i = c := by omega
        simp [this]
      · rw [if_neg hil, hmask i (by omega)]
        simp

/-- One full step of `sparse_one_hot` on a one-hot row, in the shape of the
amended claim. -/
theorem sparse_row_one_hot (cols c : Nat) (hc : c < cols) (prev : List Nat)
    (hprev : prev = zero_row cols ∨ ∃ c', c' < cols ∧ prev = one_hot_row cols c') :
    sparse_row prev (one_hot_row cols c) =
      (if one_hot_row cols c = prev then
        (if one_hot_row cols c = one_hot_row cols (cols - 1) then one_hot_row cols c
         else zero_row cols)
      else one_hot_row cols c) := by
  rcases hprev with rfl | ⟨c', hc', rfl⟩
  · rw [if_neg (one_hot_row_ne_zero_row hc)]
    apply sparse_row_new cols c hc _ (length_zero_row cols)
    rw [getElem_zero_row]
  · by_cases hcc : c = c'
    · subst hcc
      rw [if_pos rfl]
      rw [sparse_row_same cols c hc]
      by_cases hcl : c = cols - 1
      · rw [if_pos hcl, if_pos (by rw [(one_hot_row_inj hc)]; exact hcl)]
      · rw [if_neg hcl, if_neg (by rw [(one_hot_row_inj hc)]; exact hcl)]
    · rw [if_neg (by rw [(one_hot_row_inj hc)]; exact hcc)]
      apply sparse_row_new cols c hc _ (length_one_hot_row cols c')
      rw [getElem_one_hot_row]
      simp [hcc]

/-- The row recursions of `sparse_one_hot` and of the amended description
agree on scripts of one-hot rows, from any admissible predecessor. -/
theorem sparse_go_eq_amended_go (cols : Nat) :
    ∀ (rows : List (List Nat)) (prev : List Nat),
      (∀ r ∈ rows, ∃ c, c < cols ∧ r = one_hot_row cols c) →
      (prev = zero_row cols ∨ ∃ c', c' < cols ∧ prev = one_hot_row cols c') →
      sparse_one_hot_go prev rows = amended_sparse_go cols prev rows := by
  intro rows
  induction rows with
  | nil => intro prev _ _; rfl
  | cons r rest ih =>
    intro prev hall hprev
    obtain ⟨c, hc, rfl⟩ := hall r (List.mem_cons_self _ _)
    show sparse_row prev (one_hot_row cols c) :: sparse_one_hot_go (one_hot_row cols c) rest = _
    rw [sparse_row_one_hot cols c hc prev hprev]
    unfold amended_sparse_go
    congr 1
    exact ih _ (fun r hr => hall r (List.mem_cons_of_mem _ hr)) (Or.inr ⟨c, hc, rfl⟩)

/-- C3 (amended): on an aligned (one-hot per frame) input, `sparse_one_hot`
keeps the label of every frame whose row differs from its predecessor (run
starts, the predecessor of frame 0 being all-zero), re-emits the "no-button"
(last) column on no-button frames, and emits the all-zero row — not the
"no-button" category — on every later frame of a non-empty run. -/
theorem sparse_one_hot_characterization (cols : Nat) (rows : List (List Nat))
    (h : ∀ r ∈ rows, ∃ c, c < cols ∧ r = one_hot_row cols c) :
    sparse_one_hot cols rows = amended_sparse cols rows :=
  sparse_go_eq_amended_go cols rows (zero_row cols) h (Or.inl rfl)

/-- C3 witness: the characterization evaluated on a held one-button run. -/
theorem sparse_one_hot_characterization_witness :
    sparse_one_hot 2 [[1, 0], [1, 0]] = amended_sparse 2 [[1, 0], [1, 0]] :=
  sparse_one_hot_characterization 2 [[1, 0], [1, 0]]
    (by
      intro r hr
      refine ⟨0, by omega, ?_⟩
      simp only [List.mem_cons, List.not_mem_nil, or_false] at hr
      rcases hr with rfl | rfl <;> decide)

/-- C3 counterexample: on a held one-button run the second frame of the run
comes out all-zero, not as the claimed "no-button" category. -/
theorem sparse_one_hot_counterexample :
    sparse_one_hot 2 [[1, 0], [1, 0]] = [[1, 0], [0, 0]] ∧
    claim_sparse 2 [[1, 0], [1, 0]] = [[1, 0], [0, 1]] ∧
    sparse_one_hot 2 [[1, 0], [1, 0]] ≠ claim_sparse 2 [[1, 0], [1, 0]] := by
  decide

end Hal
